import Mathlib

/-!
Verification of the Snuba ClickHouse expression formatter
(`snuba/clickhouse/formatter/expression.py`) and of the stream offset
tracker (`snuba/utils/streams/parallel.py`) against their natural-language
specification.

The formatter sources are embedded faithfully; helper modules that the
formatter imports (`snuba/clickhouse/escaping.py`, `snuba/query/conditions.py`,
`snuba/query/parsing.py`, `snuba/query/expressions.py`) are not part of the
source tree being verified and are modelled from the specification, as noted
on each such definition.
-/

namespace Snuba

/-- Modelled from the spec: the dialect-specific quote character used by the
escaping primitives (`snuba/clickhouse/escaping.py` is not among the sources).
The ClickHouse identifier quote character is the backtick. -/
def quoteStr : String := "\x60"

/-- Modelled from the spec: a character that may appear in an unquoted
identifier, i.e. one of `[A-Za-z0-9_]`. -/
def isSafeChar (c : Char) : Bool :=
  ('a' ≤ c && c ≤ 'z') || ('A' ≤ c && c ≤ 'Z') || ('0' ≤ c && c ≤ '9') || c = '_'

/-- Modelled from the spec: the reserved words of the dialect.  The spec names
no concrete list and no claim exercises a reserved identifier, so the list is
left empty. -/
def reservedWords : List String := []

/-- Modelled from the spec: an identifier needs quoting when it contains a
character outside `[A-Za-z0-9_]`, starts with a digit, or collides with a
reserved word. -/
def needsQuoting (name : String) : Bool :=
  name.data.any (fun c => !(isSafeChar c))
    || (match name.data with | [] => true | c :: _ => c.isDigit)
    || reservedWords.contains name

/-- Modelled from the spec: quoting wraps the name in the quote character and
doubles any embedded instance of the quote character. -/
def quoteName (name : String) : String :=
  quoteStr
    ++ name.data.foldl
        (fun acc c => if c = '\x60' then acc ++ quoteStr ++ quoteStr else acc.push c) ""
    ++ quoteStr

/-- Modelled from the spec: `escape_identifier` quotes a bare identifier only
if it needs quoting.  (The null-input case of the Python function is not
modelled: every call site in the formatter passes a present string.) -/
def escape_identifier (name : String) : String :=
  if needsQuoting name then quoteName name else name

/-- Modelled from the spec: `escape_alias` uses the same quoting mechanism;
a name containing `.` falls outside `[A-Za-z0-9_]` and therefore passes
through only in quoted form. -/
def escape_alias (name : String) : String :=
  if needsQuoting name then quoteName name else name

/-- Modelled from the spec: `escape_string` wraps the value in single quotes
and escapes embedded backslashes and single quotes by prefixing a backslash. -/
def escape_string (value : String) : String :=
  "'"
    ++ value.data.foldl
        (fun acc c =>
          if c = '\\' then acc ++ "\\\\"
          else if c = '\'' then acc ++ "\\'"
          else acc.push c) ""
    ++ "'"

/-- Modelled from the spec: the ParsingContext is a mutable set of alias
strings already bound during the current pass; here it is threaded
explicitly as a list. -/
abbrev Ctx := List String

/-- Modelled from the spec: `ParsingContext.is_alias_present`. -/
def isAliasPresent (ctx : Ctx) (al : String) : Bool := ctx.contains al

/-- Modelled from the spec: `ParsingContext.add_alias`. -/
def addAlias (ctx : Ctx) (al : String) : Ctx := al :: ctx

/-- A Python `datetime.datetime` value, to the precision the formatter
inspects: calendar fields, a microsecond component and an optional timezone
offset.  The canonical formatter drops the last two
(`value.replace(tzinfo=None, microsecond=0)`). -/
structure DateTimeV where
  year : Nat
  month : Nat
  day : Nat
  hour : Nat
  minute : Nat
  second : Nat
  microsecond : Nat
  tzMinutes : Option Int
deriving DecidableEq, Repr

/-- A Python `datetime.date` value. -/
structure DateV where
  year : Nat
  month : Nat
  day : Nat
deriving DecidableEq, Repr

/-- The value carried by a `Literal` expression.  Python `bool` is checked
before `int` in `visit_literal`, so the two are distinct kinds here; `int`
and `float` are both the number kind.  A Python float is identified by its
textual form (`str(value)`), which is what the canonical formatter prints.
`other` stands for a value of any unrecognized type, carrying the name of
that type. -/
inductive Value where
  | null : Value
  | boolV (b : Bool) : Value
  | intV (n : Int) : Value
  | floatV (text : String) : Value
  | strV (s : String) : Value
  | dtV (d : DateTimeV) : Value
  | dateV (d : DateV) : Value
  | other (typeName : String) : Value
deriving DecidableEq, Repr

/-- The Snuba query expression IR (`snuba/query/expressions.py`, modelled
from the spec §3).  `subscriptableReference` carries its column's and its
key literal's fields inline.  `curriedFunctionCall`'s inner function is an
arbitrary expression visited with the ordinary dispatch, as
`exp.internal_function.accept(self)` does. -/
inductive Expression where
  | literal (al : Option String) (value : Value) : Expression
  | column (al : Option String) (tableName : Option String) (columnName : String) :
      Expression
  | subscriptableReference (al : Option String) (colAlias : Option String)
      (tableName : Option String) (columnName : String)
      (keyAlias : Option String) (key : Value) : Expression
  | functionCall (al : Option String) (functionName : String)
      (parameters : List Expression) : Expression
  | curriedFunctionCall (al : Option String) (internalFunction : Expression)
      (parameters : List Expression) : Expression
  | lambda (al : Option String) (parameters : List String)
      (transformation : Expression) : Expression
  | argument (name : String) : Expression
deriving Repr

/-- The two concrete formatter strategies. -/
inductive Strategy where
  | canonical : Strategy
  | anonymized : Strategy
deriving DecidableEq, Repr

/-- `ClickhouseExpressionFormatterBase._alias`: the shared alias-binding
routine.  `if not alias` in Python is true for both an absent alias and the
empty string. -/
def bindAlias (ctx : Ctx) (formattedExp : String) (al : Option String) :
    String × Ctx :=
  match al with
  | none => (formattedExp, ctx)
  | some a =>
    if a = "" then (formattedExp, ctx)
    else if isAliasPresent ctx a then (escape_alias a, ctx)
    else ("(" ++ formattedExp ++ " AS " ++ escape_alias a ++ ")", addAlias ctx a)

/-- ISO format of a datetime after `replace(tzinfo=None, microsecond=0)`:
`YYYY-MM-DDTHH:MM:SS` with zero padding. -/
def pad2 (n : Nat) : String := if n < 10 then "0" ++ toString n else toString n

/-- Four-digit zero padding for years. -/
def pad4 (n : Nat) : String :=
  if n < 10 then "000" ++ toString n
  else if n < 100 then "00" ++ toString n
  else if n < 1000 then "0" ++ toString n
  else toString n

/-- `date.isoformat()`. -/
def isoDate (d : DateV) : String :=
  pad4 d.year ++ "-" ++ pad2 d.month ++ "-" ++ pad2 d.day

/-- `datetime.replace(tzinfo=None, microsecond=0).isoformat()`: the
microsecond and timezone fields are dropped. -/
def isoDateTime (d : DateTimeV) : String :=
  pad4 d.year ++ "-" ++ pad2 d.month ++ "-" ++ pad2 d.day ++ "T"
    ++ pad2 d.hour ++ ":" ++ pad2 d.minute ++ ":" ++ pad2 d.second

/-- `visit_literal`, together with the per-strategy literal hooks
(`_format_*_literal`).  The canonical hooks pass their text through
`_alias`; the anonymized hooks return a bare category token.  The null
branch is `self._alias("NULL", exp.alias)` (line 78 of the source).  An
unrecognized value raises `ValueError(f"Unexpected literal type ...")`. -/
def visitLiteral (s : Strategy) (al : Option String) (v : Value) (ctx : Ctx) :
    Except String (String × Ctx) :=
  match v with
  | .null => .ok (bindAlias ctx "NULL" al)
  | .boolV b =>
    match s with
    | .canonical => .ok (bindAlias ctx (if b then "true" else "false") al)
    | .anonymized => .ok ("$B", ctx)
  | .strV str =>
    match s with
    | .canonical => .ok (bindAlias ctx (escape_string str) al)
    | .anonymized => .ok ("$S", ctx)
  | .intV n =>
    match s with
    | .canonical => .ok (bindAlias ctx (toString n) al)
    | .anonymized => .ok ("$N", ctx)
  | .floatV text =>
    match s with
    | .canonical => .ok (bindAlias ctx text al)
    | .anonymized => .ok ("$N", ctx)
  | .dtV d =>
    match s with
    | .canonical =>
      .ok (bindAlias ctx ("toDateTime('" ++ isoDateTime d ++ "', 'Universal')") al)
    | .anonymized => .ok ("$DT", ctx)
  | .dateV d =>
    match s with
    | .canonical =>
      .ok (bindAlias ctx ("toDate('" ++ isoDate d ++ "', 'Universal')") al)
    | .anonymized => .ok ("$D", ctx)
  | .other typeName => .error ("Unexpected literal type " ++ typeName)

/-- `visit_column`, bare-column branch (`exp.table_name` falsy): the alias is
suppressed exactly when it equals the unescaped column name. -/
def visitColumnBare (al : Option String) (columnName : String) (ctx : Ctx) :
    String × Ctx :=
  let escaped := escape_identifier columnName
  if al = some columnName then (escaped, ctx)
  else bindAlias ctx escaped al

/-- `visit_column`.  Python's `if exp.table_name:` treats an empty table name
like an absent one.  With a table the reference is
`escape_identifier(table) ++ "." ++ escape_alias(column)` and the unescaped
reference is `table ++ "." ++ column`; the alias is suppressed exactly when
it equals the unescaped reference. -/
def visitColumn (al : Option String) (tableName : Option String)
    (columnName : String) (ctx : Ctx) : String × Ctx :=
  match tableName with
  | none => visitColumnBare al columnName ctx
  | some t =>
    if t = "" then visitColumnBare al columnName ctx
    else
      let escaped := escape_identifier t ++ "." ++ escape_alias columnName
      let unescaped := t ++ "." ++ columnName
      if al = some unescaped then (escaped, ctx)
      else bindAlias ctx escaped al

/-- Sequence a formatting step with its continuation, propagating a raised
error (a specialization of `Except.bind`, kept as its own definition so that
unfolding in proofs stays predictable). -/
def exSeq {α β : Type} (r : Except String α) (f : α → Except String β) :
    Except String β :=
  match r with
  | .error m => .error m
  | .ok v => f v

mutual

/-- The shared visitor `ClickhouseExpressionFormatterBase`, parameterized by
the concrete strategy; returns the formatted string and the updated context
or the raised error.  For the boolean branches, the source computes
`get_first_level_and(or)_conditions(exp)` and joins the visited results; the
flattener (`snuba/query/conditions.py`, not among the sources) is modelled
from the spec §4.2: AND/OR nodes are binary, and descent continues while a
child is the same operator.  Here that flatten-then-visit loop is fused into
`visitBoolOperand`, which visits the leaves in the same depth-first
left-to-right order; a boolean node without exactly two parameters is a
modelled error.  Neither the AND branch (line 139) nor the OR branch
(line 143) passes its result through `_alias`. -/
def visit (s : Strategy) (e : Expression) (ctx : Ctx) : Except String (String × Ctx) :=
  match e with
  | .literal al v => visitLiteral s al v ctx
  | .column al t c => .ok (visitColumn al t c ctx)
  | .subscriptableReference _ colAl t c keyAl k =>
    exSeq (visitLiteral s keyAl k (visitColumn colAl t c ctx).2) (fun q =>
      .ok ((visitColumn colAl t c ctx).1 ++ "[" ++ q.1 ++ "]", q.2))
  | .functionCall al name ps =>
    if name = "array" then
      exSeq (visitParams s ps ctx) (fun p =>
        .ok (bindAlias p.2 ("[" ++ String.intercalate ", " p.1 ++ "]") al))
    else if name = "and" then
      match ps with
      | [l, r] =>
        exSeq (visitBoolOperand s "and" " AND " l ctx) (fun p =>
          exSeq (visitBoolOperand s "and" " AND " r p.2) (fun q =>
            .ok (p.1 ++ " AND " ++ q.1, q.2)))
      | _ => .error "boolean function must be binary"
    else if name = "or" then
      match ps with
      | [l, r] =>
        exSeq (visitBoolOperand s "or" " OR " l ctx) (fun p =>
          exSeq (visitBoolOperand s "or" " OR " r p.2) (fun q =>
            .ok ("(" ++ p.1 ++ " OR " ++ q.1 ++ ")", q.2)))
      | _ => .error "boolean function must be binary"
    else
      exSeq (visitParams s ps ctx) (fun p =>
        .ok (bindAlias p.2
          (escape_identifier name ++ "(" ++ String.intercalate ", " p.1 ++ ")") al))
  | .curriedFunctionCall al inner ps =>
    exSeq (visit s inner ctx) (fun p =>
      exSeq (visitParams s ps p.2) (fun q =>
        .ok (bindAlias q.2 (p.1 ++ "(" ++ String.intercalate ", " q.1 ++ ")") al)))
  | .lambda al params body =>
    exSeq (visit s body ctx) (fun p =>
      .ok (bindAlias p.2
        ("(" ++ String.intercalate ", " (params.map escape_identifier)
          ++ " -> " ++ p.1 ++ ")") al))
  | .argument name => .ok (escape_identifier name, ctx)
termination_by (sizeOf e, 0)

/-- `__visit_params`: visit a parameter list left to right, threading the
context. -/
def visitParams (s : Strategy) (es : List Expression) (ctx : Ctx) :
    Except String (List String × Ctx) :=
  match es with
  | [] => .ok ([], ctx)
  | e :: rest =>
    exSeq (visit s e ctx) (fun p =>
      exSeq (visitParams s rest p.2) (fun q => .ok (p.1 :: q.1, q.2)))
termination_by (sizeOf es, 0)

/-- One operand of a flattened boolean join: while the operand is itself a
binary call of the same operator, descend into both sides and join with the
separator; otherwise visit it as an ordinary expression.  This renders the
flattened leaves in depth-first, left-before-right order. -/
def visitBoolOperand (s : Strategy) (op sep : String) (e : Expression) (ctx : Ctx) :
    Except String (String × Ctx) :=
  match e with
  | .functionCall a name [l, r] =>
    if name = op then
      exSeq (visitBoolOperand s op sep l ctx) (fun p =>
        exSeq (visitBoolOperand s op sep r p.2) (fun q =>
          .ok (p.1 ++ sep ++ q.1, q.2)))
    else visit s (.functionCall a name [l, r]) ctx
  | e => visit s e ctx
termination_by (sizeOf e, 1)

end

/-- Modelled from the spec: the condition flattener
(`get_first_level_and_conditions` / `get_first_level_or_conditions` of
`snuba/query/conditions.py`, not among the sources), parameterized by the
operator per spec §4.2: starting from a node, descend into each side of a
binary call of the same operator, depth-first and left before right,
collecting the leaves. -/
def flattenOp (op : String) : Expression → List Expression
  | .functionCall a name [l, r] =>
    if name = op then flattenOp op l ++ flattenOp op r
    else [.functionCall a name [l, r]]
  | e => [e]

/-- Visit a list of expressions left to right, joining the formatted results
with a separator and threading the context: the reference rendering of a
flattened operand list. -/
def renderJoined (s : Strategy) (sep : String) :
    List Expression → Ctx → Except String (String × Ctx)
  | [], ctx => .ok ("", ctx)
  | [e], ctx => visit s e ctx
  | e :: e2 :: rest, ctx =>
    exSeq (visit s e ctx) (fun p =>
      exSeq (renderJoined s sep (e2 :: rest) p.2) (fun q =>
        .ok (p.1 ++ sep ++ q.1, q.2)))

/-- Replace a literal value by a canonical representative of its kind (null,
boolean, number, string, datetime, date); `int` and `float` are the same
kind, number.  Unrecognized values keep their type name. -/
def eraseV : Value → Value
  | .null => .null
  | .boolV _ => .boolV true
  | .intV _ => .intV 0
  | .floatV _ => .intV 0
  | .strV _ => .strV ""
  | .dtV _ => .dtV ⟨1970, 1, 1, 0, 0, 0, 0, none⟩
  | .dateV _ => .dateV ⟨1970, 1, 1⟩
  | .other typeName => .other typeName

mutual

/-- Erase every literal value in a tree to its kind representative, keeping
all structure, names and aliases.  Two trees that are identical except for
same-kind literal values erase to the same tree. -/
def eraseE : Expression → Expression
  | .literal al v => .literal al (eraseV v)
  | .column al t c => .column al t c
  | .subscriptableReference al ca t c ka k =>
    .subscriptableReference al ca t c ka (eraseV k)
  | .functionCall al n ps => .functionCall al n (eraseList ps)
  | .curriedFunctionCall al inner ps =>
    .curriedFunctionCall al (eraseE inner) (eraseList ps)
  | .lambda al ps body => .lambda al ps (eraseE body)
  | .argument n => .argument n

/-- `eraseE` mapped over a parameter list. -/
def eraseList : List Expression → List Expression
  | [] => []
  | e :: es => eraseE e :: eraseList es

end

/-- A sequence of calls to the alias-binding routine with one fixed alias,
as performed by the N aliasable occurrences of that alias within one pass;
returns each call's rendering and the final context. -/
def bindAll (a : String) : List String → Ctx → List String × Ctx
  | [], ctx => ([], ctx)
  | t :: ts, ctx =>
    let p1 := bindAlias ctx t (some a)
    let p2 := bindAll a ts p1.2
    (p1.1 :: p2.1, p2.2)

/-- Replace the alias carried at the root of an expression (`argument`
carries none). -/
def setAlias : Expression → Option String → Expression
  | .literal _ v, al => .literal al v
  | .column _ t c, al => .column al t c
  | .subscriptableReference _ ca t c ka k, al =>
    .subscriptableReference al ca t c ka k
  | .functionCall _ n ps, al => .functionCall al n ps
  | .curriedFunctionCall _ inner ps, al => .curriedFunctionCall al inner ps
  | .lambda _ ps body, al => .lambda al ps body
  | .argument n, _ => .argument n

/-- Whether an expression is a binary call of the given boolean operator,
i.e. a node the flattener would descend into. -/
def isBoolCallB (op : String) : Expression → Bool
  | .functionCall _ name [_, _] => name = op
  | _ => false

/-- A left-nested chain of binary AND nodes over non-AND leaf operands,
together with its leaves in source (depth-first, left-before-right) order.
The aliases carried by the AND nodes themselves are arbitrary. -/
inductive AndChain : Expression → List Expression → Prop where
  | leaf (e : Expression) : isBoolCallB "and" e = false → AndChain e [e]
  | node (al : Option String) (l r : Expression) (ls : List Expression) :
      AndChain l ls → isBoolCallB "and" r = false →
      AndChain (.functionCall al "and" [l, r]) (ls ++ [r])

/-! The stream offset tracker, `snuba/utils/streams/parallel.py`.  The
`__completed` list holds `none` for offsets that were never added (gaps),
`some false` for in-progress offsets and `some true` for completed ones. -/

/-- `OffsetTracker.__init__` state: the epoch and the `__completed` list. -/
structure OffsetTracker where
  epoch : Int
  completed : List (Option Bool)
deriving DecidableEq, Repr

/-- `OffsetTracker(epoch)`. -/
def OffsetTracker.new (epoch : Int) : OffsetTracker := ⟨epoch, []⟩

/-- `OffsetTracker.add`: requires `offset - epoch >= len(completed)` (else
`ValueError("offset must move monotonically")`), pads the gap with `None`
and appends `False`. -/
def OffsetTracker.add (t : OffsetTracker) (offset : Int) :
    Except String OffsetTracker :=
  let index := offset - t.epoch
  if (t.completed.length : Int) ≤ index then
    .ok ⟨t.epoch,
      t.completed ++ List.replicate (index - t.completed.length).toNat none
        ++ [some false]⟩
  else .error "offset must move monotonically"

/-- `OffsetTracker.remove`: raises `ValueError("offset out of range")` when
`index < 0` or `index > len(completed)`; reading `completed[index]` at
`index == len(completed)` raises `IndexError`; raises
`ValueError("offset is already untracked")` unless the entry is `False`;
otherwise sets the entry to `True`. -/
def OffsetTracker.remove (t : OffsetTracker) (offset : Int) :
    Except String OffsetTracker :=
  let index := offset - t.epoch
  if index < 0 ∨ (t.completed.length : Int) < index then .error "offset out of range"
  else
    match t.completed[index.toNat]? with
    | none => .error "list index out of range"
    | some entry =>
      if entry = some false then
        .ok ⟨t.epoch, t.completed.set index.toNat (some true)⟩
      else .error "offset is already untracked"

/-- `OffsetTracker.value`: the offset of the leftmost `False` entry
(`completed.index(False)`; `None` and `True` entries do not match), or
`epoch + len(completed)` when there is none. -/
def OffsetTracker.value (t : OffsetTracker) : Int :=
  match t.completed.findIdx? (· = some false) with
  | some i => t.epoch + i
  | none => t.epoch + t.completed.length

/-- One operation against the tracker. -/
inductive Op where
  | add (offset : Int) : Op
  | remove (offset : Int) : Op
deriving DecidableEq, Repr

/-- Apply one operation. -/
def applyOp (t : OffsetTracker) : Op → Except String OffsetTracker
  | .add o => t.add o
  | .remove o => t.remove o

/-- Run a sequence of operations, stopping at the first error. -/
def runOps (t : OffsetTracker) : List Op → Except String OffsetTracker
  | [] => .ok t
  | op :: ops =>
    match applyOp t op with
    | .error m => .error m
    | .ok t1 => runOps t1 ops

/-- The offsets added by a trace, in order. -/
def addedOf (ops : List Op) : List Int :=
  ops.filterMap (fun op => match op with | .add o => some o | .remove _ => none)

/-- The offsets removed by a trace, in order. -/
def removedOf (ops : List Op) : List Int :=
  ops.filterMap (fun op => match op with | .add _ => none | .remove o => some o)


/-! ### Basic properties of the alias-binding routine -/

/-- An empty-string alias takes the same `if not alias` branch as an absent
one. -/
theorem bindAlias_empty_eq_none (ctx : Ctx) (text : String) :
    bindAlias ctx text (some "") = bindAlias ctx text none := by
  simp [bindAlias]

/-- Binding a fresh, non-empty alias emits the `AS` clause and registers the
alias. -/
theorem bindAlias_fresh (ctx : Ctx) (text : String) (a : String) (h1 : a ≠ "")
    (h2 : a ∉ ctx) :
    bindAlias ctx text (some a)
      = ("(" ++ text ++ " AS " ++ escape_alias a ++ ")", addAlias ctx a) := by
  simp [bindAlias, isAliasPresent, h1, h2]

/-- Binding an already-present alias returns the bare escaped alias and
leaves the context unchanged. -/
theorem bindAlias_present (ctx : Ctx) (text : String) (a : String) (h1 : a ≠ "")
    (h2 : a ∈ ctx) :
    bindAlias ctx text (some a) = (escape_alias a, ctx) := by
  simp [bindAlias, isAliasPresent, h1, h2]

/-- Once the alias is in the context, every further binding renders the bare
escaped alias and the context never changes. -/
theorem bindAll_after (a : String) (h0 : a ≠ "") (ts : List String) (c : Ctx)
    (h : a ∈ c) :
    bindAll a ts c = (List.replicate ts.length (escape_alias a), c) := by
  induction ts with
  | nil => simp [bindAll]
  | cons t ts ih =>
    simp [bindAll, bindAlias_present c t a h0 h, ih, List.replicate_succ]

/-! ### The claims -/

/-- C4: within one pass, a non-empty alias reaching the alias-binding
routine N > 1 times renders its first occurrence as `(expr AS <escaped
alias>)` and each of the remaining N−1 occurrences as the bare escaped
alias, and the context contains the alias after the first binding. -/
theorem alias_single_binding (a t : String) (ts : List String) (ctx : Ctx)
    (h1 : a ≠ "") (h2 : a ∉ ctx) :
    bindAll a (t :: ts) ctx
      = (("(" ++ t ++ " AS " ++ escape_alias a ++ ")")
            :: List.replicate ts.length (escape_alias a),
         addAlias ctx a)
    ∧ a ∈ addAlias ctx a := by
  constructor
  · simp [bindAll, bindAlias_fresh ctx t a h1 h2,
      bindAll_after a h1 ts (addAlias ctx a) (by simp [addAlias])]
  · simp [addAlias]

/-- Witness for C4 at alias `"a"` bound three times. -/
theorem alias_single_binding_witness :
    bindAll "a" ["x", "y", "z"] [] = (["(x AS a)", "a", "a"], ["a"])
    ∧ "a" ∈ ["a"] := by
  have h := alias_single_binding "a" "x" ["y", "z"] [] (by decide) (by simp)
  simpa [escape_alias, needsQuoting, isSafeChar, quoteName, reservedWords,
    addAlias] using h

/-- C9: a Literal whose value is of an unrecognized kind makes formatting
fail immediately with the descriptive `ValueError`, under both strategies,
with no fallback rendering and no partial output. -/
theorem unrecognized_literal_fails (s : Strategy) (al : Option String)
    (typeName : String) (ctx : Ctx) :
    visit s (.literal al (.other typeName)) ctx
      = .error ("Unexpected literal type " ++ typeName) := by
  simp [visit, visitLiteral]

/-- C3 counterexample: under the anonymized strategy a string Literal with a
fresh alias renders as the bare token `$S` with the context unchanged — not
as `($S AS a)` with the alias registered, as the claim requires. -/
theorem anonymized_literal_binds_alias_cex :
    visit .anonymized (.literal (some "a") (.strV "x")) [] = .ok ("$S", [])
    ∧ visit .anonymized (.literal (some "a") (.strV "x")) []
        ≠ .ok ("($S AS a)", ["a"]) := by
  constructor <;> simp [visit, visitLiteral]

/-- C3 (amended): the anonymized strategy does not pass non-null literal
hook results through the alias-binding routine: every non-null recognized
Literal renders as its bare category token, with no `AS` clause and the
context unchanged, whatever alias it carries. -/
theorem anonymized_literal_drops_alias (al : Option String) (ctx : Ctx) :
    (∀ v, visit .anonymized (.literal al (.strV v)) ctx = .ok ("$S", ctx))
    ∧ (∀ n : Int, visit .anonymized (.literal al (.intV n)) ctx = .ok ("$N", ctx))
    ∧ (∀ v, visit .anonymized (.literal al (.floatV v)) ctx = .ok ("$N", ctx))
    ∧ (∀ b, visit .anonymized (.literal al (.boolV b)) ctx = .ok ("$B", ctx))
    ∧ (∀ d, visit .anonymized (.literal al (.dtV d)) ctx = .ok ("$DT", ctx))
    ∧ (∀ d, visit .anonymized (.literal al (.dateV d)) ctx = .ok ("$D", ctx)) := by
  refine ⟨fun v => ?_, fun n => ?_, fun v => ?_, fun b => ?_, fun d => ?_,
    fun d => ?_⟩ <;> simp [visit, visitLiteral]

/-- C6: a Column whose alias equals the unescaped fully-qualified reference
renders as the escaped reference alone, with no `AS` clause and the alias
not registered in the context — both for bare and table-qualified columns,
under either strategy. -/
theorem column_self_alias_suppressed (s : Strategy) (ctx : Ctx) (c : String) :
    visit s (.column (some c) none c) ctx = .ok (escape_identifier c, ctx)
    ∧ ∀ t : String, t ≠ "" →
        visit s (.column (some (t ++ "." ++ c)) (some t) c) ctx
          = .ok (escape_identifier t ++ "." ++ escape_alias c, ctx) := by
  constructor
  · simp [visit, visitColumn, visitColumnBare]
  · intro t ht; simp [visit, visitColumn, ht]

/-- Witness for C6 at `Column(None, "foo", alias="foo")` and
`Column("tbl", "foo", alias="tbl.foo")`. -/
theorem column_self_alias_suppressed_witness :
    visit .canonical (.column (some "foo") none "foo") [] = .ok ("foo", [])
    ∧ visit .canonical (.column (some "tbl.foo") (some "tbl") "foo") []
        = .ok ("tbl.foo", []) := by
  have h := column_self_alias_suppressed .canonical [] "foo"
  have h1 := h.1
  have h2 := h.2 "tbl" (by decide)
  rw [show escape_identifier "foo" = "foo" from by decide] at h1
  rw [show escape_identifier "tbl" = "tbl" from by decide,
    show escape_alias "foo" = "foo" from by decide] at h2
  rw [show ("tbl" ++ "." ++ "foo" : String) = "tbl.foo" from by decide] at h2
  exact ⟨h1, h2⟩

/-- C1 counterexample: a null Literal carrying a fresh alias renders as
`(NULL AS a)` with the alias registered in the context — the alias is not
ignored as the claim states. -/
theorem null_literal_ignores_alias_cex :
    visit .canonical (.literal (some "a") .null) [] = .ok ("(NULL AS a)", ["a"])
    ∧ visit .canonical (.literal (some "a") .null) [] ≠ .ok ("NULL", []) := by
  constructor <;>
    simp [visit, visitLiteral, bindAlias, isAliasPresent, addAlias, escape_alias,
      needsQuoting, isSafeChar, quoteName, reservedWords]

/-- C1 (amended): under both strategies a null Literal renders as the token
`NULL` passed through the alias-binding routine: a fresh non-empty alias
yields `(NULL AS <escaped alias>)` and is registered in the context, an
already-bound alias yields the bare escaped alias, and no alias yields
`NULL`. -/
theorem null_literal_binds_alias (s : Strategy) (ctx : Ctx) :
    (∀ a : String, a ≠ "" → a ∉ ctx →
      visit s (.literal (some a) .null) ctx
        = .ok ("(NULL AS " ++ escape_alias a ++ ")", addAlias ctx a))
    ∧ (∀ a : String, a ≠ "" → a ∈ ctx →
      visit s (.literal (some a) .null) ctx = .ok (escape_alias a, ctx))
    ∧ visit s (.literal none .null) ctx = .ok ("NULL", ctx) := by
  refine ⟨fun a h1 h2 => ?_, fun a h1 h2 => ?_, ?_⟩
  · simp [visit, visitLiteral, bindAlias_fresh ctx "NULL" a h1 h2]
  · simp [visit, visitLiteral, bindAlias_present ctx "NULL" a h1 h2]
  · simp [visit, visitLiteral, bindAlias]

/-- Witness for C1 (amended) at alias `"a"` over a context already holding
`"b"`. -/
theorem null_literal_binds_alias_witness :
    visit .canonical (.literal (some "a") .null) ["b"]
      = .ok ("(NULL AS a)", ["a", "b"]) := by
  have h := (null_literal_binds_alias .canonical ["b"]).1 "a" (by decide) (by simp)
  rw [show escape_alias "a" = "a" from by decide] at h
  simpa [addAlias] using h

/-- C10: an empty-string alias behaves exactly like an absent alias: the
alias-binding routine returns the rendered text unchanged without touching
the context, and replacing an expression's root alias `some ""` by `none`
never changes the output of either strategy. -/
theorem empty_alias_like_absent (s : Strategy) (e : Expression) (ctx : Ctx)
    (text : String) :
    bindAlias ctx text (some "") = (text, ctx)
    ∧ visit s (setAlias e (some "")) ctx = visit s (setAlias e none) ctx := by
  refine ⟨by simp [bindAlias], ?_⟩
  cases e with
  | literal al v =>
    cases v <;> cases s <;>
      simp [visit, setAlias, visitLiteral, bindAlias_empty_eq_none]
  | column al t c =>
    simp only [visit, setAlias, visitColumn, visitColumnBare]
    cases t with
    | none =>
      by_cases hc : c = "" <;> simp [hc, bindAlias]
    | some tn =>
      by_cases ht : tn = ""
      · by_cases hc : c = "" <;> simp [ht, hc, bindAlias]
      · simp only [if_neg ht]
        by_cases hu : "" = tn ++ "." ++ c
        · simp [← hu, bindAlias]
        · simp [hu, bindAlias_empty_eq_none]
  | subscriptableReference al ca t c ka k => simp [visit, setAlias]
  | functionCall al n ps =>
    rw [setAlias, setAlias, visit.eq_def, visit.eq_def]
    simp only [bindAlias_empty_eq_none]
  | curriedFunctionCall al inner ps =>
    rw [setAlias, setAlias, visit.eq_def, visit.eq_def]
    simp only [bindAlias_empty_eq_none]
  | lambda al ps body =>
    rw [setAlias, setAlias, visit.eq_def, visit.eq_def]
    simp only [bindAlias_empty_eq_none]
  | argument n => rfl

/-! ### The condition flattener and boolean joins -/

/-- `exSeq` on a success applies the continuation. -/
theorem exSeq_ok {α β : Type} (v : α) (f : α → Except String β) :
    exSeq (.ok v) f = f v := rfl

/-- `exSeq` is associative. -/
theorem exSeq_assoc {α β γ : Type} (r : Except String α) (f : α → Except String β)
    (g : β → Except String γ) :
    exSeq (exSeq r f) g = exSeq r (fun v => exSeq (f v) g) := by
  cases r <;> simp [exSeq]

/-- A pure middle step fuses into the continuation. -/
theorem exSeq_pure {α β γ : Type} (r : Except String α) (h : α → β)
    (g : β → Except String γ) :
    exSeq (exSeq r (fun v => .ok (h v))) g = exSeq r (fun v => g (h v)) := by
  cases r <;> simp [exSeq]

/-- The flattener always produces at least one operand. -/
theorem flattenOp_ne_nil (op : String) (e : Expression) : flattenOp op e ≠ [] := by
  induction e using flattenOp.induct op <;> simp_all [flattenOp]

/-- Any expression that is not a binary call is its own single flattened
operand. -/
theorem flattenOp_leaf (op : String) (e : Expression)
    (h : ∀ (a : Option String) (n : String) (l r : Expression),
      e ≠ .functionCall a n [l, r]) :
    flattenOp op e = [e] := by
  cases e with
  | functionCall a n ps =>
    cases ps with
    | nil => simp [flattenOp]
    | cons x ps1 =>
      cases ps1 with
      | nil => simp [flattenOp]
      | cons y ps2 =>
        cases ps2 with
        | nil => exact absurd rfl (h a n x y)
        | cons z ps3 => simp [flattenOp]
  | literal al v => simp [flattenOp]
  | column al t c => simp [flattenOp]
  | subscriptableReference al ca t c ka k => simp [flattenOp]
  | curriedFunctionCall al inner ps => simp [flattenOp]
  | lambda al ps b => simp [flattenOp]
  | argument n => simp [flattenOp]

/-- An expression that is not a binary call of the operator is its own
single flattened operand. -/
theorem flattenOp_of_not_boolCall (op : String) (e : Expression)
    (h : isBoolCallB op e = false) : flattenOp op e = [e] := by
  cases e with
  | functionCall a n ps =>
    cases ps with
    | nil => simp [flattenOp]
    | cons x ps1 =>
      cases ps1 with
      | nil => simp [flattenOp]
      | cons y ps2 =>
        cases ps2 with
        | nil =>
          have hne : n ≠ op := by simpa [isBoolCallB] using h
          simp [flattenOp, hne]
        | cons z ps3 => simp [flattenOp]
  | literal al v => simp [flattenOp]
  | column al t c => simp [flattenOp]
  | subscriptableReference al ca t c ka k => simp [flattenOp]
  | curriedFunctionCall al inner ps => simp [flattenOp]
  | lambda al ps b => simp [flattenOp]
  | argument n => simp [flattenOp]

/-- On an operand that is not a binary call, the fused boolean-join visitor
is the ordinary visitor. -/
theorem visitBoolOperand_leaf (s : Strategy) (op sep : String) (e : Expression)
    (ctx : Ctx)
    (h : ∀ (a : Option String) (n : String) (l r : Expression),
      e ≠ .functionCall a n [l, r]) :
    visitBoolOperand s op sep e ctx = visit s e ctx := by
  cases e with
  | functionCall a n ps =>
    cases ps with
    | nil => simp [visitBoolOperand]
    | cons x ps1 =>
      cases ps1 with
      | nil => simp [visitBoolOperand]
      | cons y ps2 =>
        cases ps2 with
        | nil => exact absurd rfl (h a n x y)
        | cons z ps3 => simp [visitBoolOperand]
  | literal al v => simp [visitBoolOperand]
  | column al t c => simp [visitBoolOperand]
  | subscriptableReference al ca t c ka k => simp [visitBoolOperand]
  | curriedFunctionCall al inner ps => simp [visitBoolOperand]
  | lambda al ps b => simp [visitBoolOperand]
  | argument n => simp [visitBoolOperand]

/-- Joining the renderings of an appended operand list splits into the two
halves with one separator in between. -/
theorem renderJoined_append (s : Strategy) (sep : String) (xs ys : List Expression)
    (hx : xs ≠ []) (hy : ys ≠ []) :
    ∀ ctx, renderJoined s sep (xs ++ ys) ctx
      = exSeq (renderJoined s sep xs ctx) (fun p =>
          exSeq (renderJoined s sep ys p.2) (fun q =>
            .ok (p.1 ++ sep ++ q.1, q.2))) := by
  induction xs with
  | nil => exact absurd rfl hx
  | cons e rest ih =>
    intro ctx
    cases rest with
    | nil =>
      obtain ⟨y, ys2, rfl⟩ : ∃ y ys2, ys = y :: ys2 := by
        cases ys with
        | nil => exact absurd rfl hy
        | cons y ys2 => exact ⟨y, ys2, rfl⟩
      simp only [List.singleton_append, renderJoined]
    | cons e2 rest2 =>
      have ih2 := ih (by simp)
      have ih3 : ∀ c, renderJoined s sep (e2 :: (rest2 ++ ys)) c
          = exSeq (renderJoined s sep (e2 :: rest2) c) (fun p =>
              exSeq (renderJoined s sep ys p.2) (fun q =>
                .ok (p.1 ++ sep ++ q.1, q.2))) := by
        intro c
        have := ih2 c
        rwa [List.cons_append] at this
      simp only [List.cons_append, List.append_eq, renderJoined]
      simp only [ih3, exSeq_assoc, exSeq_ok, exSeq_pure]
      simp [String.append_assoc]

/-- The fused boolean-join visitor renders exactly the flattened operands of
the spec's condition flattener, joined by the separator in depth-first,
left-before-right order. -/
theorem visitBoolOperand_eq_flatten (s : Strategy) (op sep : String) (e : Expression)
    (ctx : Ctx) :
    visitBoolOperand s op sep e ctx = renderJoined s sep (flattenOp op e) ctx := by
  refine visitBoolOperand.induct s (fun _ _ => True)
      (fun op sep e ctx =>
        visitBoolOperand s op sep e ctx = renderJoined s sep (flattenOp op e) ctx)
      (fun _ _ => True)
      ?_ ?_ ?_ ?_ ?_ ?_ ?_ ?_ ?_ ?_ ?_ ?_ ?_ ?_ ?_ ?_ ?_ op sep e ctx
  · intros; trivial
  · intros; trivial
  · intros; trivial
  · intros; trivial
  · intros; trivial
  · intros; trivial
  · intros; trivial
  · intros; trivial
  · intros; trivial
  · intros; trivial
  · intros; trivial
  · intros; trivial
  · intro sep2 ctx2 a name l r ih1 ih2
    rw [show visitBoolOperand s name sep2 (.functionCall a name [l, r]) ctx2
        = exSeq (visitBoolOperand s name sep2 l ctx2) (fun p =>
            exSeq (visitBoolOperand s name sep2 r p.2) (fun q =>
              .ok (p.1 ++ sep2 ++ q.1, q.2))) from by simp [visitBoolOperand]]
    rw [show flattenOp name (Expression.functionCall a name [l, r])
        = flattenOp name l ++ flattenOp name r from by simp [flattenOp]]
    rw [renderJoined_append s sep2 _ _ (flattenOp_ne_nil _ _) (flattenOp_ne_nil _ _) ctx2]
    rw [ih1]
    simp only [ih2]
  · intro op2 sep2 ctx2 a name l r hne _
    simp [visitBoolOperand, flattenOp, hne, renderJoined]
  · intro op2 sep2 ctx2 e2 hshape _
    rw [visitBoolOperand_leaf s op2 sep2 e2 ctx2 (fun a n l r he => hshape a n l r he),
      flattenOp_leaf op2 e2 (fun a n l r he => hshape a n l r he)]
    simp [renderJoined]
  · intros; trivial
  · intros; trivial


/-- Unfolding of the AND branch of `visit_function_call`. -/
theorem visit_and_eq (s : Strategy) (al : Option String) (l r : Expression) (ctx : Ctx) :
    visit s (.functionCall al "and" [l, r]) ctx
      = exSeq (visitBoolOperand s "and" " AND " l ctx) (fun p =>
          exSeq (visitBoolOperand s "and" " AND " r p.2) (fun q =>
            .ok (p.1 ++ " AND " ++ q.1, q.2))) := by
  simp [visit]

/-- Unfolding of the OR branch of `visit_function_call`. -/
theorem visit_or_eq (s : Strategy) (al : Option String) (l r : Expression) (ctx : Ctx) :
    visit s (.functionCall al "or" [l, r]) ctx
      = exSeq (visitBoolOperand s "or" " OR " l ctx) (fun p =>
          exSeq (visitBoolOperand s "or" " OR " r p.2) (fun q =>
            .ok ("(" ++ p.1 ++ " OR " ++ q.1 ++ ")", q.2))) := by
  simp [visit]

/-- A left-nested AND chain flattens exactly to its leaves in source
order. -/
theorem AndChain_flatten (e : Expression) (ls : List Expression) (h : AndChain e ls) :
    flattenOp "and" e = ls := by
  induction h with
  | leaf e he => exact flattenOp_of_not_boolCall "and" e he
  | node al l r ls hl hr ih =>
    rw [show flattenOp "and" (.functionCall al "and" [l, r])
        = flattenOp "and" l ++ flattenOp "and" r from by simp [flattenOp]]
    rw [ih, flattenOp_of_not_boolCall "and" r hr]

/-- C5: a left-nested chain of binary AND nodes over non-AND leaves renders
as the leaves' renderings in depth-first, left-before-right source order
joined by ` AND `, with no parentheses added at this level and without
passing the result through the alias-binding routine, so any alias on the
AND nodes is dropped (the chain in `AndChain` carries arbitrary aliases). -/
theorem and_chain_flat_join (s : Strategy) (e : Expression) (ls : List Expression)
    (ctx : Ctx) (h : AndChain e ls) :
    visit s e ctx = renderJoined s " AND " ls ctx := by
  cases h with
  | leaf e he => simp [renderJoined]
  | node al l r ls2 hl hr =>
    have hls : ls2 ≠ [] := by
      intro hnil
      exact flattenOp_ne_nil "and" l (by rw [AndChain_flatten l ls2 hl, hnil])
    rw [visit_and_eq]
    simp only [visitBoolOperand_eq_flatten]
    rw [AndChain_flatten l ls2 hl, flattenOp_of_not_boolCall "and" r hr]
    rw [← renderJoined_append s " AND " ls2 [r] hls (by simp) ctx]

/-- Witness for C5: the chain `and(and(and(a,b),c),d)` carrying alias `"x"`
renders as `a AND b AND c AND d` with nothing registered. -/
theorem and_chain_flat_join_witness :
    visit .canonical
        (.functionCall (some "x") "and"
          [.functionCall none "and"
            [.functionCall none "and" [.column none none "a", .column none none "b"],
             .column none none "c"],
           .column none none "d"]) []
      = .ok ("a AND b AND c AND d", []) := by
  have h1 : AndChain (Expression.column none none "a") [Expression.column none none "a"] :=
    AndChain.leaf _ (by decide)
  have h2 : AndChain
      (Expression.functionCall none "and"
        [Expression.column none none "a", Expression.column none none "b"])
      [Expression.column none none "a", Expression.column none none "b"] := by
    simpa using AndChain.node none _ _ _ h1 (by decide)
  have h3 : AndChain
      (Expression.functionCall none "and"
        [Expression.functionCall none "and"
          [Expression.column none none "a", Expression.column none none "b"],
         Expression.column none none "c"])
      [Expression.column none none "a", Expression.column none none "b",
       Expression.column none none "c"] := by
    simpa using AndChain.node none _ _ _ h2 (by decide)
  have h4 : AndChain
      (Expression.functionCall (some "x") "and"
        [Expression.functionCall none "and"
          [Expression.functionCall none "and"
            [Expression.column none none "a", Expression.column none none "b"],
           Expression.column none none "c"],
         Expression.column none none "d"])
      [Expression.column none none "a", Expression.column none none "b",
       Expression.column none none "c", Expression.column none none "d"] := by
    simpa using AndChain.node (some "x") _ _ _ h3 (by decide)
  rw [and_chain_flat_join .canonical _ _ [] h4]
  simp [renderJoined, visit, visitColumn, visitColumnBare, bindAlias, exSeq,
    escape_identifier, needsQuoting, isSafeChar, quoteName, quoteStr, reservedWords]

/-- C2 counterexample: an OR node carrying a fresh alias renders as
`(a OR b)` with the context left empty — not as `((a OR b) AS x)` with the
alias registered, as the claim requires. -/
theorem or_binds_alias_cex :
    visit .canonical
        (.functionCall (some "x") "or" [.column none none "a", .column none none "b"]) []
      = .ok ("(a OR b)", [])
    ∧ visit .canonical
        (.functionCall (some "x") "or" [.column none none "a", .column none none "b"]) []
      ≠ .ok ("((a OR b) AS x)", ["x"]) := by
  constructor <;>
    simp [visit, visitParams, visitBoolOperand, visitLiteral, visitColumn,
      visitColumnBare, bindAlias, isAliasPresent, addAlias, escape_alias,
      escape_identifier, needsQuoting, isSafeChar, quoteName, quoteStr,
      reservedWords, exSeq]

/-- C2 (amended): a binary OR node renders as its flattened operands joined
by ` OR ` wrapped in exactly one parenthesis pair, but the result is
returned directly without passing through the alias-binding routine: the
node's alias is dropped and never registered (the output is independent of
the alias). -/
theorem or_flatten_paren_no_bind (s : Strategy) (al : Option String) (l r : Expression) (ctx : Ctx) :
    visit s (.functionCall al "or" [l, r]) ctx
      = exSeq (renderJoined s " OR "
            (flattenOp "or" (.functionCall al "or" [l, r])) ctx)
          (fun p => .ok ("(" ++ p.1 ++ ")", p.2))
    ∧ visit s (.functionCall al "or" [l, r]) ctx
        = visit s (.functionCall none "or" [l, r]) ctx := by
  constructor
  · rw [show flattenOp "or" (Expression.functionCall al "or" [l, r])
        = flattenOp "or" l ++ flattenOp "or" r from by simp [flattenOp]]
    rw [visit_or_eq]
    simp only [visitBoolOperand_eq_flatten]
    rw [renderJoined_append s " OR " _ _ (flattenOp_ne_nil _ _) (flattenOp_ne_nil _ _) ctx]
    simp only [exSeq_assoc, exSeq_ok, exSeq_pure]
    simp [String.append_assoc]
  · rw [visit_or_eq, visit_or_eq]

/-! ### Value-independence of the anonymized strategy -/

/-- The anonymized literal hooks ignore the value, so erasing a value to its
kind representative does not change the anonymized rendering. -/
theorem visitLiteral_anon_eraseV (al : Option String) (v : Value) (ctx : Ctx) :
    visitLiteral .anonymized al (eraseV v) ctx = visitLiteral .anonymized al v ctx := by
  cases v <;> simp [visitLiteral, eraseV]

/-- Erasure preserves the length-two shape of a parameter list. -/
theorem eraseList_pair {ps : List Expression} {l r : Expression}
    (h : eraseList ps = [l, r]) : ∃ x y, ps = [x, y] := by
  cases ps with
  | nil => simp [eraseList] at h
  | cons x ps1 =>
    cases ps1 with
    | nil => simp [eraseList] at h
    | cons y ps2 =>
      cases ps2 with
      | nil => exact ⟨x, y, rfl⟩
      | cons z ps3 => simp [eraseList] at h

/-- Erasure preserves not being a binary call. -/
theorem eraseE_not_pair {e : Expression}
    (h : ∀ (a : Option String) (n : String) (l r : Expression),
      e = .functionCall a n [l, r] → False) :
    ∀ (a : Option String) (n : String) (l r : Expression),
      eraseE e = .functionCall a n [l, r] → False := by
  intro a n l r he
  cases e with
  | functionCall a2 n2 ps =>
    rw [show eraseE (Expression.functionCall a2 n2 ps)
        = .functionCall a2 n2 (eraseList ps) from by simp [eraseE]] at he
    injection he with h1 h2 h3
    subst h1; subst h2
    obtain ⟨x, y, rfl⟩ := eraseList_pair h3
    exact h _ _ x y rfl
  | literal al v => simp [eraseE] at he
  | column al t c => simp [eraseE] at he
  | subscriptableReference al ca t c ka k => simp [eraseE] at he
  | curriedFunctionCall al inner ps => simp [eraseE] at he
  | lambda al ps b => simp [eraseE] at he
  | argument nm => simp [eraseE] at he

/-- The anonymized formatter only depends on the erasure of its input:
every literal value can be replaced by its kind representative without
changing the output or the context. -/
theorem visit_anon_erase (e : Expression) (ctx : Ctx) :
    visit .anonymized e ctx = visit .anonymized (eraseE e) ctx := by
  refine visit.induct .anonymized
      (fun e ctx => visit .anonymized e ctx = visit .anonymized (eraseE e) ctx)
      (fun op sep e ctx => visitBoolOperand .anonymized op sep e ctx
        = visitBoolOperand .anonymized op sep (eraseE e) ctx)
      (fun es ctx => visitParams .anonymized es ctx
        = visitParams .anonymized (eraseList es) ctx)
      ?_ ?_ ?_ ?_ ?_ ?_ ?_ ?_ ?_ ?_ ?_ ?_ ?_ ?_ ?_ ?_ ?_ e ctx
  · -- literal
    intro ctx al v
    simp [visit, eraseE, visitLiteral_anon_eraseV]
  · -- column
    intro ctx al t c
    simp [eraseE]
  · -- subscriptableReference
    intro ctx al ca t c ka k
    simp [visit, eraseE, visitLiteral_anon_eraseV]
  · -- array
    intro ctx a ps ih
    rw [show eraseE (Expression.functionCall a "array" ps)
        = .functionCall a "array" (eraseList ps) from by simp [eraseE]]
    rw [visit.eq_def, visit.eq_def]
    simp only [ih]
    simp
  · -- and [l, r]
    intro ctx a l r _ ih1 ih2
    rw [show eraseE (Expression.functionCall a "and" [l, r])
        = .functionCall a "and" [eraseE l, eraseE r] from by simp [eraseE, eraseList]]
    rw [visit_and_eq, visit_and_eq, ih1]
    simp only [ih2]
  · -- and, not binary
    intro ctx a ps hshape _
    rw [show eraseE (Expression.functionCall a "and" ps)
        = .functionCall a "and" (eraseList ps) from by simp [eraseE]]
    cases ps with
    | nil => simp [visit, eraseList]
    | cons x ps1 =>
      cases ps1 with
      | nil => simp [visit, eraseList]
      | cons y ps2 =>
        cases ps2 with
        | nil => exact absurd rfl (fun he => hshape x y he)
        | cons z ps3 => simp [visit, eraseList]
  · -- or [l, r]
    intro ctx a l r _ _ ih1 ih2
    rw [show eraseE (Expression.functionCall a "or" [l, r])
        = .functionCall a "or" [eraseE l, eraseE r] from by simp [eraseE, eraseList]]
    rw [visit_or_eq, visit_or_eq, ih1]
    simp only [ih2]
  · -- or, not binary
    intro ctx a ps hshape _ _
    rw [show eraseE (Expression.functionCall a "or" ps)
        = .functionCall a "or" (eraseList ps) from by simp [eraseE]]
    cases ps with
    | nil => simp [visit, eraseList]
    | cons x ps1 =>
      cases ps1 with
      | nil => simp [visit, eraseList]
      | cons y ps2 =>
        cases ps2 with
        | nil => exact absurd rfl (fun he => hshape x y he)
        | cons z ps3 => simp [visit, eraseList]
  · -- default function call
    intro ctx a name ps h1 h2 h3 ih
    rw [show eraseE (Expression.functionCall a name ps)
        = .functionCall a name (eraseList ps) from by simp [eraseE]]
    rw [visit.eq_def, visit.eq_def]
    simp only [if_neg h1, if_neg h2, if_neg h3, ih]
  · -- curried
    intro ctx a inner ps ih1 ih2
    rw [show eraseE (Expression.curriedFunctionCall a inner ps)
        = .curriedFunctionCall a (eraseE inner) (eraseList ps) from by simp [eraseE]]
    rw [visit.eq_def, visit.eq_def]
    simp only [← ih1]
    simp only [ih2]
  · -- lambda
    intro ctx a ps b ih
    rw [show eraseE (Expression.lambda a ps b)
        = .lambda a ps (eraseE b) from by simp [eraseE]]
    rw [visit.eq_def, visit.eq_def]
    simp only [← ih]
  · -- argument
    intro ctx nm
    simp [eraseE]
  · -- visitBoolOperand, same operator
    intro sep ctx a name l r ih1 ih2
    rw [show eraseE (Expression.functionCall a name [l, r])
        = .functionCall a name [eraseE l, eraseE r] from by simp [eraseE, eraseList]]
    rw [show visitBoolOperand .anonymized name sep (.functionCall a name [l, r]) ctx
        = exSeq (visitBoolOperand .anonymized name sep l ctx) (fun p =>
            exSeq (visitBoolOperand .anonymized name sep r p.2) (fun q =>
              .ok (p.1 ++ sep ++ q.1, q.2))) from by simp [visitBoolOperand]]
    rw [show visitBoolOperand .anonymized name sep
          (.functionCall a name [eraseE l, eraseE r]) ctx
        = exSeq (visitBoolOperand .anonymized name sep (eraseE l) ctx) (fun p =>
            exSeq (visitBoolOperand .anonymized name sep (eraseE r) p.2) (fun q =>
              .ok (p.1 ++ sep ++ q.1, q.2))) from by simp [visitBoolOperand]]
    rw [ih1]
    simp only [ih2]
  · -- visitBoolOperand, other operator
    intro op sep ctx a name l r hne ih
    rw [show eraseE (Expression.functionCall a name [l, r])
        = .functionCall a name [eraseE l, eraseE r] from by simp [eraseE, eraseList]]
    rw [show visitBoolOperand .anonymized op sep (.functionCall a name [l, r]) ctx
        = visit .anonymized (.functionCall a name [l, r]) ctx from by
      simp [visitBoolOperand, hne]]
    rw [show visitBoolOperand .anonymized op sep
          (.functionCall a name [eraseE l, eraseE r]) ctx
        = visit .anonymized (.functionCall a name [eraseE l, eraseE r]) ctx from by
      simp [visitBoolOperand, hne]]
    rw [ih]
    rw [show eraseE (Expression.functionCall a name [l, r])
        = .functionCall a name [eraseE l, eraseE r] from by simp [eraseE, eraseList]]
  · -- visitBoolOperand, leaf
    intro op sep ctx e2 hshape ih
    rw [visitBoolOperand_leaf .anonymized op sep e2 ctx
        (fun a n l r he => hshape a n l r he)]
    rw [visitBoolOperand_leaf .anonymized op sep (eraseE e2) ctx
        (fun a n l r he => eraseE_not_pair hshape a n l r he)]
    exact ih
  · -- visitParams nil
    intro ctx
    simp [eraseList]
  · -- visitParams cons
    intro ctx e2 rest ih1 ih2
    rw [show eraseList (e2 :: rest) = eraseE e2 :: eraseList rest from by simp [eraseList]]
    rw [visitParams.eq_def, visitParams.eq_def]
    simp only [← ih1]
    simp only [ih2]

/-- C7: two expression trees with the same erasure — in particular, trees
identical except that literal values differ while keeping their kind, their
position and their aliases — produce identical anonymized output from the
same fresh context. -/
theorem anonymized_value_independent (e1 e2 : Expression) (ctx : Ctx) (h : eraseE e1 = eraseE e2) :
    visit .anonymized e1 ctx = visit .anonymized e2 ctx := by
  rw [visit_anon_erase e1 ctx, h, ← visit_anon_erase e2 ctx]

/-- Witness for C7: two trees differing only in a string literal's value
anonymize identically. -/
theorem anonymized_value_independent_witness :
    visit .anonymized
        (.functionCall (some "f") "equals"
          [.column none none "a", .literal none (.strV "abc")]) []
      = visit .anonymized
        (.functionCall (some "f") "equals"
          [.column none none "a", .literal none (.strV "xyz")]) [] :=
  anonymized_value_independent _ _ [] (by simp [eraseE, eraseList, eraseV])

/-! ### The offset tracker against its traces -/

/-- The entry the `completed` list should hold for an offset after a trace:
`none` if the offset was never added, otherwise `some` of whether it has
been removed. -/
def entryAt (ops : List Op) (o : Int) : Option Bool :=
  if o ∈ addedOf ops then some (decide (o ∈ removedOf ops)) else none

/-- The state invariant tying a tracker to the successful trace that
produced it. -/
structure Models (epoch : Int) (ops : List Op) (t : OffsetTracker) : Prop where
  epochEq : t.epoch = epoch
  lastLen : match (addedOf ops).getLast? with
    | none => t.completed.length = 0
    | some m => (t.completed.length : Int) = m + 1 - epoch
  addedRange : ∀ o ∈ addedOf ops, epoch ≤ o ∧ o - epoch < (t.completed.length : Int)
  removedSub : ∀ o ∈ removedOf ops, o ∈ addedOf ops
  entries : ∀ i : Nat, i < t.completed.length →
    t.completed[i]? = some (entryAt ops (epoch + i))

/-- Appending an add appends its offset to the added list. -/
theorem addedOf_append_add (ops : List Op) (o : Int) :
    addedOf (ops ++ [Op.add o]) = addedOf ops ++ [o] := by
  simp [addedOf]

/-- Appending a remove leaves the added list unchanged. -/
theorem addedOf_append_remove (ops : List Op) (o : Int) :
    addedOf (ops ++ [Op.remove o]) = addedOf ops := by
  simp [addedOf]

/-- Appending an add leaves the removed list unchanged. -/
theorem removedOf_append_add (ops : List Op) (o : Int) :
    removedOf (ops ++ [Op.add o]) = removedOf ops := by
  simp [removedOf]

/-- Appending a remove appends its offset to the removed list. -/
theorem removedOf_append_remove (ops : List Op) (o : Int) :
    removedOf (ops ++ [Op.remove o]) = removedOf ops ++ [o] := by
  simp [removedOf]

/-- A fresh tracker models the empty trace. -/
theorem Models.init (epoch : Int) : Models epoch [] (OffsetTracker.new epoch) := by
  refine ⟨rfl, ?_, ?_, ?_, ?_⟩ <;>
    simp [OffsetTracker.new, addedOf, removedOf, entryAt]

/-- A successful `add` preserves the invariant: the guard forces the offset
past every previous entry, the gap is padded with `none` and the new offset
is recorded in-flight. -/
theorem Models.addStep {epoch : Int} {ops : List Op} {t t' : OffsetTracker}
    (hm : Models epoch ops t) (o : Int) (h : t.add o = .ok t') :
    Models epoch (ops ++ [Op.add o]) t' := by
  have hg : (t.completed.length : Int) ≤ o - t.epoch := by
    by_contra hng
    simp [OffsetTracker.add, hng] at h
  have hepo := hm.epochEq
  simp only [OffsetTracker.add, if_pos hg, Except.ok.injEq] at h
  subst h
  have hgap : ((o - t.epoch - t.completed.length).toNat : Int)
      = o - epoch - t.completed.length := by omega
  have hlen : ((t.completed ++ List.replicate (o - t.epoch - t.completed.length).toNat none
      ++ [some false]).length : Int) = o - epoch + 1 := by
    simp [List.length_append, List.length_replicate]
    omega
  have hout : ∀ p ∈ addedOf ops, p < o := by
    intro p hp
    have := (hm.addedRange p hp).2
    omega
  have honotold : o ∉ addedOf ops := by
    intro hmem
    exact absurd rfl (by have := hout o hmem; omega : ¬ (o : Int) = o)
  refine ⟨hepo, ?_, ?_, ?_, ?_⟩
  · dsimp only
    rw [addedOf_append_add, List.getLast?_concat]
    omega
  · dsimp only
    intro p hp
    rw [addedOf_append_add] at hp
    rcases List.mem_append.mp hp with hp | hp
    · have := hm.addedRange p hp
      omega
    · simp at hp
      subst hp
      omega
  · dsimp only
    intro p hp
    rw [removedOf_append_add] at hp
    rw [addedOf_append_add]
    exact List.mem_append.mpr (Or.inl (hm.removedSub p hp))
  · dsimp only
    intro i hi
    have htot : (t.completed ++ List.replicate (o - t.epoch - t.completed.length).toNat none
        ++ [some false]).length
        = t.completed.length + (o - t.epoch - t.completed.length).toNat + 1 := by
      simp [List.length_append, List.length_replicate]
      omega
    rw [htot] at hi
    by_cases h1 : i < t.completed.length
    · rw [List.getElem?_append_left (by simp [List.length_append]; omega),
        List.getElem?_append_left h1]
      rw [hm.entries i h1]
      congr 1
      simp only [entryAt, addedOf_append_add, removedOf_append_add, List.mem_append,
        List.mem_singleton]
      have hne : ¬ (epoch + i = o) := by omega
      simp [hne]
    · by_cases h2 : i < t.completed.length + (o - t.epoch - t.completed.length).toNat
      · rw [List.getElem?_append_left (by simp [List.length_append]; omega)]
        rw [List.getElem?_append_right (by omega)]
        rw [List.getElem?_replicate]
        rw [if_pos (by omega)]
        have hnot : entryAt (ops ++ [Op.add o]) (epoch + i) = none := by
          simp only [entryAt, addedOf_append_add, List.mem_append, List.mem_singleton]
          rw [if_neg]
          push_neg
          constructor
          · intro hmem
            have := (hm.addedRange _ hmem).2
            omega
          · omega
        rw [hnot]
      · have hieq : i = t.completed.length + (o - t.epoch - t.completed.length).toNat := by
          omega
        have hlen2 : (t.completed ++ List.replicate
            (o - t.epoch - t.completed.length).toNat none).length = i := by
          simp [List.length_append, List.length_replicate]
          omega
        rw [hieq]
        rw [show t.completed.length + (o - t.epoch - t.completed.length).toNat
            = (t.completed ++ List.replicate
                (o - t.epoch - t.completed.length).toNat none).length from by
          simp [List.length_append, List.length_replicate]]
        rw [List.getElem?_concat_length]
        have heq : epoch + ((t.completed ++ List.replicate
            (o - t.epoch - t.completed.length).toNat none).length : Nat) = o := by
          simp [List.length_append, List.length_replicate]
          omega
        rw [heq]
        have hor : o ∉ removedOf (ops ++ [Op.add o]) := by
          rw [removedOf_append_add]
          intro hmem
          exact honotold (hm.removedSub o hmem)
        simp [entryAt, addedOf_append_add, hor]


/-- A successful `remove` preserves the invariant: the guards force an
in-range offset whose entry is `False` — i.e. added exactly once before and
not yet removed — and mark it complete. -/
theorem Models.removeStep {epoch : Int} {ops : List Op} {t t' : OffsetTracker}
    (hm : Models epoch ops t) (o : Int) (h : t.remove o = .ok t') :
    Models epoch (ops ++ [Op.remove o]) t' := by
  have hepo := hm.epochEq
  dsimp only [OffsetTracker.remove] at h
  split at h
  · exact Except.noConfusion h
  · rename_i hcond
    push_neg at hcond
    obtain ⟨hge, hle⟩ := hcond
    split at h
    · exact Except.noConfusion h
    · rename_i entry hget
      split at h
      · rename_i hent
        subst hent
        injection h with h
        subst h
        have hlt : (o - t.epoch).toNat < t.completed.length := by
          by_contra hnlt
          rw [List.getElem?_eq_none (by omega)] at hget
          exact Option.noConfusion hget
        have hoeq : epoch + ((o - t.epoch).toNat : Nat) = o := by omega
        have hentry := hm.entries (o - t.epoch).toNat hlt
        rw [hget] at hentry
        have hEA : entryAt ops o = some false := by
          rw [← hoeq]
          injection hentry with hh
          exact hh.symm
        have hoadded : o ∈ addedOf ops := by
          by_contra hno
          simp [entryAt, hno] at hEA
        have honorem : o ∉ removedOf ops := by
          intro hmem
          simp [entryAt, hoadded, hmem] at hEA
        refine ⟨hepo, ?_, ?_, ?_, ?_⟩
        · dsimp only
          rw [addedOf_append_remove, List.length_set]
          exact hm.lastLen
        · dsimp only
          intro p hp
          rw [addedOf_append_remove] at hp
          rw [List.length_set]
          exact hm.addedRange p hp
        · dsimp only
          intro p hp
          rw [removedOf_append_remove] at hp
          rw [addedOf_append_remove]
          rcases List.mem_append.mp hp with hp | hp
          · exact hm.removedSub p hp
          · simp at hp
            subst hp
            exact hoadded
        · dsimp only
          intro i hi
          rw [List.length_set] at hi
          rw [List.getElem?_set]
          by_cases hij : (o - t.epoch).toNat = i
          · rw [if_pos hij, if_pos (by omega)]
            have hio : epoch + (i : Nat) = o := by omega
            rw [hio]
            have hmemr : o ∈ removedOf (ops ++ [Op.remove o]) := by
              rw [removedOf_append_remove]
              exact List.mem_append.mpr (Or.inr (by simp))
            simp [entryAt, addedOf_append_remove, hoadded, hmemr]
          · rw [if_neg hij]
            rw [hm.entries i hi]
            congr 1
            have hne : ¬ (epoch + (i : Nat) = o) := by omega
            simp only [entryAt, addedOf_append_remove, removedOf_append_remove,
              List.mem_append, List.mem_singleton, hne, or_false]
      · exact Except.noConfusion h

/-- Running a trace from a modelled state extends the modelled trace. -/
theorem Models.runStep {epoch : Int} :
    ∀ (ops pre : List Op) (t0 t : OffsetTracker),
      Models epoch pre t0 → runOps t0 ops = .ok t → Models epoch (pre ++ ops) t := by
  intro ops
  induction ops with
  | nil =>
    intro pre t0 t hm h
    simp only [runOps] at h
    injection h with h
    subst h
    simpa using hm
  | cons op rest ih =>
    intro pre t0 t hm h
    simp only [runOps] at h
    cases hap : applyOp t0 op with
    | error m => rw [hap] at h; simp at h
    | ok t1 =>
      rw [hap] at h
      have hm1 : Models epoch (pre ++ [op]) t1 := by
        cases op with
        | add o => exact hm.addStep o (by simpa [applyOp] using hap)
        | remove o => exact hm.removeStep o (by simpa [applyOp] using hap)
      have := ih (pre ++ [op]) t1 t hm1 h
      simpa [List.append_assoc] using this

/-- Any tracker reached by a successful trace from a fresh tracker models
that trace. -/
theorem runOps_models {epoch : Int} {ops : List Op} {t : OffsetTracker}
    (h : runOps (OffsetTracker.new epoch) ops = .ok t) : Models epoch ops t := by
  simpa using Models.runStep ops [] (OffsetTracker.new epoch) t (Models.init epoch) h


/-- When some added offset is still unremoved, `value()` is an added,
unremoved offset and is the least such. -/
theorem Models.value_pending {epoch : Int} {ops : List Op} {t : OffsetTracker}
    (hm : Models epoch ops t) (o : Int) (hadd : o ∈ addedOf ops)
    (hrem : o ∉ removedOf ops) :
    (t.value ∈ addedOf ops ∧ t.value ∉ removedOf ops)
    ∧ ∀ p, p ∈ addedOf ops → p ∉ removedOf ops → t.value ≤ p := by
  have hrange := hm.addedRange o hadd
  have hjlt : (o - epoch).toNat < t.completed.length := by omega
  have hjo : epoch + (((o - epoch).toNat : Nat) : Int) = o := by omega
  have hjentry : t.completed[(o - epoch).toNat]? = some (some false) := by
    rw [hm.entries _ hjlt, hjo]
    simp [entryAt, hadd, hrem]
  cases hfi : t.completed.findIdx? (· = some false) with
  | none =>
    exfalso
    rw [List.findIdx?_eq_none_iff] at hfi
    have hmem : (some false : Option Bool) ∈ t.completed :=
      List.getElem?_mem hjentry
    have := hfi _ hmem
    simp at this
  | some i =>
    have hval : t.value = epoch + i := by
      rw [OffsetTracker.value, hfi, hm.epochEq]
    obtain ⟨hilt, hpi, hmin⟩ := List.findIdx?_eq_some_iff_getElem.mp hfi
    have hEi : entryAt ops (epoch + i) = some false := by
      have h1 := hm.entries i hilt
      rw [List.getElem?_eq_getElem hilt] at h1
      injection h1 with h1
      rw [← h1]
      simpa using hpi
    have hvp : (epoch + (i : Int)) ∈ addedOf ops ∧ (epoch + (i : Int)) ∉ removedOf ops := by
      by_cases hA : (epoch + (i : Int)) ∈ addedOf ops
      · refine ⟨hA, fun hR => ?_⟩
        simp [entryAt, hA, hR] at hEi
      · simp [entryAt, hA] at hEi
    refine ⟨⟨hval ▸ hvp.1, hval ▸ hvp.2⟩, ?_⟩
    intro p hpadd hprem
    have hpr := hm.addedRange p hpadd
    have hklt : (p - epoch).toNat < t.completed.length := by omega
    have hko : epoch + (((p - epoch).toNat : Nat) : Int) = p := by omega
    have hkentry : t.completed[(p - epoch).toNat] = some false := by
      have hh := hm.entries _ hklt
      rw [List.getElem?_eq_getElem hklt] at hh
      injection hh with hh
      rw [hh, hko]
      simp [entryAt, hpadd, hprem]
    have hnk : ¬ (p - epoch).toNat < i := by
      intro hk
      exact (hmin _ hk) (by simp [hkentry])
    rw [hval]
    omega

/-- When every added offset has been removed, `value()` is one past the
last added offset, or the epoch when nothing was ever added. -/
theorem Models.value_complete {epoch : Int} {ops : List Op} {t : OffsetTracker}
    (hm : Models epoch ops t)
    (hall : ∀ o ∈ addedOf ops, o ∈ removedOf ops) :
    t.value = (match (addedOf ops).getLast? with
      | none => epoch
      | some m => m + 1) := by
  have hnone : t.completed.findIdx? (· = some false) = none := by
    rw [List.findIdx?_eq_none_iff]
    intro x hx
    obtain ⟨i, hilt, hxi⟩ := List.mem_iff_getElem.mp hx
    have h1 := hm.entries i hilt
    rw [List.getElem?_eq_getElem hilt] at h1
    injection h1 with h1
    rw [← hxi, h1]
    by_cases hA : (epoch + (i : Int)) ∈ addedOf ops
    · have := hall _ hA
      simp [entryAt, hA, this]
    · simp [entryAt, hA]
  rw [OffsetTracker.value, hnone, hm.epochEq]
  have hll := hm.lastLen
  cases hl : (addedOf ops).getLast? with
  | none =>
    rw [hl] at hll
    simp [hll]
  | some m =>
    rw [hl] at hll
    rw [hll]
    ring

/-- C8: for every successful trace (success enforces that offsets were
added in strictly increasing order and each removed at most once), `value()`
returns the earliest offset that was added but not yet removed; if every
added offset has been removed it returns one past the last added offset
(the epoch when nothing was ever added); and `add()` of an offset not
strictly greater than every previously added offset raises
`ValueError("offset must move monotonically")`. -/
theorem offset_tracker_spec (epoch : Int) (ops : List Op) (t : OffsetTracker)
    (hrun : runOps (OffsetTracker.new epoch) ops = .ok t) :
    (∀ o, o ∈ addedOf ops → o ∉ removedOf ops →
      ((t.value ∈ addedOf ops ∧ t.value ∉ removedOf ops)
        ∧ ∀ p, p ∈ addedOf ops → p ∉ removedOf ops → t.value ≤ p))
    ∧ ((∀ o ∈ addedOf ops, o ∈ removedOf ops) →
      t.value = (match (addedOf ops).getLast? with
        | none => epoch
        | some m => m + 1))
    ∧ (∀ o p, p ∈ addedOf ops → o ≤ p →
      t.add o = .error "offset must move monotonically") := by
  have hm := runOps_models hrun
  refine ⟨fun o ho hr => Models.value_pending hm o ho hr,
    Models.value_complete hm, ?_⟩
  intro o p hpadd hop
  have hrange := hm.addedRange p hpadd
  have hng : ¬ ((t.completed.length : Int) ≤ o - t.epoch) := by
    rw [hm.epochEq]
    omega
  simp [OffsetTracker.add, hng]

/-- Witness for C8: after adding 0, 1, 3 and removing 0 and 3, the value is
the pending offset 1, and adding 2 (≤ 3) raises. -/
theorem offset_tracker_spec_witness :
    ((OffsetTracker.mk 0 [some true, some false, none, some true]).value
        ∈ addedOf [Op.add 0, Op.add 1, Op.add 3, Op.remove 0, Op.remove 3]
      ∧ (OffsetTracker.mk 0 [some true, some false, none, some true]).value
        ∉ removedOf [Op.add 0, Op.add 1, Op.add 3, Op.remove 0, Op.remove 3])
    ∧ (OffsetTracker.mk 0 [some true, some false, none, some true]).add 2
        = .error "offset must move monotonically" := by
  have h := offset_tracker_spec 0 [Op.add 0, Op.add 1, Op.add 3, Op.remove 0, Op.remove 3]
      (OffsetTracker.mk 0 [some true, some false, none, some true]) rfl
  exact ⟨(h.1 1 (by decide) (by decide)).1, h.2.2 2 3 (by decide) (by decide)⟩

end Snuba
